import Mathlib

/-!
Verification of the RAG handler of the MultiRole-Chatbot service.

The development shallowly embeds `backend/rag_handler.py`. Machine-learning
models and the Chroma vector store are external collaborators; they enter as
oracle fields of `RagHandler.Oracles` ("given text, produce a label / entities /
an embedding / generated text / an extractive span"). Everything the handler
itself computes — chunking, id formation, collection replacement, the relevance
gate, probe parsing, answer filtering and deduplication, source assembly — is
translated directly from the source. Python strings are modelled as `String`
with character-level operations on `.data`; Python floats (model confidence
scores) are modelled as `ℚ`; Python exceptions are modelled with `Except`.
-/

namespace RagHandler

/-- Whitespace characters removed by the `str.strip()` calls of the handler
(the ASCII whitespace set recognised by Python). -/
def wsChars : List Char := [' ', '\t', '\n', '\r', Char.ofNat 11, Char.ofNat 12]

/-- Python `s.strip(cs)`: remove the characters of `cs` from both ends of `s`. -/
def pyStrip (cs : List Char) (l : List Char) : List Char :=
  ((l.dropWhile (fun c => cs.contains c)).reverse.dropWhile (fun c => cs.contains c)).reverse

/-- Characters removed from an extracted answer span by `strip(" ,.;:-")`. -/
def answerTrimChars : List Char := (" ,.;:-" : String).data

/-- Python `q.strip()` on a string. -/
def stripWs (s : String) : String := ⟨pyStrip wsChars s.data⟩

/-- Python `answer.strip(" ,.;:-")` on a string. -/
def stripAnswer (s : String) : String := ⟨pyStrip answerTrimChars s.data⟩

/-- Decimal rendering of a natural number, with enough fuel in the first
argument; written with explicit fuel so that it is structurally recursive. -/
def natStrAux : ℕ → ℕ → List Char
  | 0, _ => []
  | f + 1, n =>
    if n < 10 then [Nat.digitChar n]
    else natStrAux f (n / 10) ++ [Nat.digitChar (n % 10)]

/-- Python `str(n)` for a natural number. -/
def natStr (n : ℕ) : String := ⟨natStrAux (n + 1) n⟩

/-- Python `text.split("\n")` at the character level; splitting the empty
string yields one empty field, as in Python. -/
def splitLines : List Char → List (List Char)
  | [] => [[]]
  | c :: rest =>
    if c = '\n' then [] :: splitLines rest
    else
      match splitLines rest with
      | [] => [[c]]
      | h :: t => (c :: h) :: t

/-- Python `os.path.basename` for the forward-slash paths the backend builds. -/
def baseName (path : String) : String :=
  ⟨(path.data.reverse.takeWhile (fun c => c ≠ '/')).reverse⟩

/-- Chunk identifier `f"doc{d}_chunk{c}"`. -/
def chunkId (d c : ℕ) : String := "doc" ++ natStr d ++ "_chunk" ++ natStr c

/-- Page marker appended after each extracted page:
`text += page.get_text("text") + f"\n--- Page {p} ---\n"`. -/
def pageMarker (p : ℕ) : String := "\n--- Page " ++ natStr p ++ " ---\n"

/-- Document text assembled page by page from the extractor output. -/
def pagesText (pages : List String) : String :=
  String.join (pages.enum.map fun pr => pr.2 ++ pageMarker (pr.1 + 1))

/-- Python slice `text[i:i+1000]` at character positions. -/
def pyWindow (text : String) (i : ℕ) : String := ⟨(text.data.drop i).take 1000⟩

/-- Window start offsets `range(0, len(text), 800)`. -/
def chunkStarts (n : ℕ) : List ℕ := (List.range ((n + 799) / 800)).map (· * 800)

/-- Sliding-window chunking from `process_documents_and_create_collection`:
`[text[i:i+1000] for i in range(0, len(text), 800) if text[i:i+1000].strip()]`. -/
def makeChunks (text : String) : List String :=
  (chunkStarts text.data.length).filterMap fun i =>
    if stripWs (pyWindow text i) = "" then none else some (pyWindow text i)

/-- Metadata stored with one chunk. The query side reads the document type
with `source.get("doc_type", "N/A")`, so the field is optional here; the
source serialises the entity list to JSON, a representation detail with no
bearing on any property below. -/
structure ChunkMeta where
  doc_type : Option String
  entities : List (String × String)
  source_file : String
  chunk_id : String
deriving DecidableEq

/-- One record of a vector-index collection. -/
structure Entry where
  id : String
  embedding : List ℚ
  document : String
  metadata : ChunkMeta
deriving DecidableEq

/-- The Chroma client state: named collections of entries. -/
abbrev Store := List (String × List Entry)

/-- One row of the accumulators `all_chunks` / `all_metadatas` / `all_ids`. -/
structure ChunkRow where
  chunk : String
  metadata : ChunkMeta
  id : String
deriving DecidableEq

/-- External collaborators of the handler: the model pipelines loaded at module
level and the vector store query interface. Each is an opaque capability. -/
structure Oracles where
  extract : String → Except String (List String)
  classify : String → String
  ner : String → Except String (List (String × String))
  encode : String → List ℚ
  relScore : String → String → ℚ
  qa : String → String → String × ℚ
  llm : String → ℕ → String
  vquery : List Entry → List ℚ → ℕ → List (String × ChunkMeta)

/-- Mirrors `classify_document`: the classifier sees only `text[:512]`. -/
def classify_document (O : Oracles) (text : String) : String :=
  O.classify ⟨text.data.take 512⟩

/-- Mirrors `extract_entities`: each entity word is stripped, and a failure of
the extractor is recovered as the empty entity list. -/
def extract_entities (O : Oracles) (text : String) : List (String × String) :=
  match O.ner text with
  | .ok es => es.map fun e => (stripWs e.1, e.2)
  | .error _ => []

/-- The per-file loop of `process_documents_and_create_collection`, with `d`
the 1-based ordinal of the next file. Extraction failure aborts the whole
run; a file whose text strips to nothing is skipped silently. -/
def buildRows (O : Oracles) : ℕ → List String → Except String (List ChunkRow)
  | _, [] => .ok []
  | d, f :: fs =>
    match O.extract f with
    | .error e => .error ("Could not read the PDF file " ++ baseName f ++ ". Error: " ++ e)
    | .ok pages =>
      let text := pagesText pages
      let here :=
        if stripWs text = "" then []
        else
          let docType := classify_document O text
          (makeChunks text).enum.map fun pr =>
            { chunk := pr.2
              metadata :=
                { doc_type := some docType
                  entities := extract_entities O pr.2
                  source_file := baseName f
                  chunk_id := chunkId d (pr.1 + 1) }
              id := chunkId d (pr.1 + 1) }
      match buildRows O (d + 1) fs with
      | .error e => .error e
      | .ok rest => .ok (here ++ rest)

/-- The replacement step: delete an existing collection under this name
before re-creating it. -/
def deleteIfExists (store : Store) (name : String) : Store :=
  if name ∈ store.map Prod.fst then store.filter (fun c => !(c.1 == name)) else store

/-- Shallow embedding of `process_documents_and_create_collection`. The store
is threaded explicitly and returned also on the failure paths, so that the
theorems can speak about what a failed run leaves behind. -/
def process_documents_and_create_collection (O : Oracles) (files : List String)
    (collection_name : String) (store : Store) : Except String Unit × Store :=
  match buildRows O 1 files with
  | .error e => (.error e, store)
  | .ok rows =>
    if rows.isEmpty then
      (.error "No text could be extracted from the provided documents.", store)
    else
      let entries := rows.map fun r =>
        { id := r.id, embedding := O.encode r.chunk, document := r.chunk,
          metadata := r.metadata : Entry }
      (.ok (), deleteIfExists store collection_name ++ [(collection_name, entries)])

/-- The per-chunk-id layout of one ingestion run: for the file of 1-based
submission ordinal `d`, one id `chunkId d j` per 1-based chunk ordinal `j`. -/
def specIdsFrom (O : Oracles) : ℕ → List String → List String
  | _, [] => []
  | d, f :: fs =>
    (match O.extract f with
     | .error _ => []
     | .ok pages =>
       let text := pagesText pages
       if stripWs text = "" then []
       else (List.range (makeChunks text).length).map fun j => chunkId d (j + 1))
    ++ specIdsFrom O (d + 1) fs

/-- The fixed role-to-topic table. -/
def ROLE_TOPICS : List (String × List String) :=
  [("Product Lead", ["business metrics", "user behavior", "product performance"]),
   ("Tech Lead", ["technical issues", "system performance", "integration status"]),
   ("Compliance Lead", ["regulatory adherence", "risk factors", "audit trails"]),
   ("Bank Alliance Lead", ["partnership performance", "integration health", "SLA compliance"])]

/-- The relevance-gate threshold 0.2. -/
def relevanceThreshold : ℚ := mkRat 1 5

/-- The extractive-confidence threshold 0.1. -/
def confidenceThreshold : ℚ := mkRat 1 10

/-- Mirrors `is_query_relevant_for_role`. The zero-shot pipeline returns its
candidate labels ranked by score descending, so `result["scores"][0]` is the
maximum of the per-label scores; the inner `none` branch is unreachable since
every topic list of `ROLE_TOPICS` is non-empty. -/
def is_query_relevant_for_role (O : Oracles) (query role : String) : Bool :=
  match ROLE_TOPICS.lookup role with
  | none => true
  | some topics =>
    match (topics.map (O.relScore query)).max? with
    | none => true
    | some m => decide (m > relevanceThreshold)

/-- The sub-question generation prompt. -/
def subQuestionPrompt (question : String) : String :=
  "Based on the user\x27s question, generate up to 3 simple, specific questions to find evidence in a document. User Question: " ++ question

/-- The off-topic short-circuit answer of the relevance gate. -/
def offTopicAnswer (role : String) : String :=
  "This question does not seem related to the typical responsibilities of a " ++ role ++ "."

/-- The answer returned when retrieval yields no context. -/
def noInfoAnswer : String := "Could not find relevant information in the uploaded documents."

/-- The answer returned when no extracted answer survives filtering. -/
def noConfidentAnswer (role : String) : String :=
  "I could not find a confident answer in the documents for a " ++ role ++ "."

/-- One element of the reported source list. -/
structure SourceRef where
  source_file : String
  doc_type : String
deriving DecidableEq

/-- The payload of a successful `query_rag_pipeline` call. -/
structure QueryResult where
  answer : String
  sources : List SourceRef
deriving DecidableEq

/-- Sub-question parsing: for each line `q` of the generated text, keep
`q.strip()` whenever that strip is non-empty and `q` contains a question mark. -/
def parseSubQuestions (generated : String) : List String :=
  (splitLines generated.data).filterMap fun l =>
    if stripWs ⟨l⟩ ≠ "" ∧ l.contains '?' = true then some (stripWs ⟨l⟩) else none

/-- The probe list: parsed sub-questions with the original question appended. -/
def probeList (generated question : String) : List String :=
  parseSubQuestions generated ++ [question]

/-- The extractive-mining loop: probe the QA model with every question, keep a
span iff its score exceeds the threshold and it survives trimming, and
accumulate into a Python set. -/
def extractedAnswers (O : Oracles) (qs : List String) (context : String) : Finset String :=
  qs.foldl (fun acc q =>
    let r := O.qa q context
    if r.2 > confidenceThreshold then
      let clean := stripAnswer r.1
      if clean ≠ "" then insert clean acc else acc
    else acc) ∅

/-- The source-assembly loop over the retrieved metadata (`unique_sources`
with its `seen_files` set). -/
def uniqueSourcesLoop : List SourceRef → List String → List ChunkMeta → List SourceRef
  | acc, _, [] => acc
  | acc, seen, s :: rest =>
    if seen.contains s.source_file then uniqueSourcesLoop acc seen rest
    else
      uniqueSourcesLoop (acc ++ [⟨s.source_file, s.doc_type.getD "N/A"⟩])
        (s.source_file :: seen) rest

/-- Source assembly as the handler performs it. -/
def uniqueSources (metas : List ChunkMeta) : List SourceRef := uniqueSourcesLoop [] [] metas

/-- First-occurrence-wins deduplication by source filename, in the direct
recursive form of the specification sentence; compared against
`uniqueSources` below. -/
def dedupByFile : List ChunkMeta → List SourceRef
  | [] => []
  | m :: rest =>
    ⟨m.source_file, m.doc_type.getD "N/A"⟩ ::
      dedupByFile (rest.filter fun s => !(s.source_file == m.source_file))
termination_by l => l.length
decreasing_by
  simp only [List.length_cons]
  exact Nat.lt_succ_of_le (List.length_filter_le _ _)

/-- String intercalation, Python `sep.join(parts)`. -/
def joinWith (sep : String) (parts : List String) : String := String.intercalate sep parts

/-- The synthesis prompt. The extracted answers and the source filenames are
Python sets, iterated in an order the language leaves unspecified; the model
renders them sorted. The prompt is only ever passed to the opaque generation
capability, so this ordering choice cannot influence any reported result. -/
def synthesisPrompt (role question : String) (answers : Finset String)
    (metas : List ChunkMeta) : String :=
  "\n    You are an expert assistant acting as a " ++ role ++
  ". Synthesize a single, comprehensive answer to the user\x27s original question based ONLY on the following extracted quotes.\n" ++
  "    - Assemble the quotes into a clean, well-formatted response (paragraphs or bullets).\n" ++
  "    - You MUST use the exact word-for-word quotes. Do not add any new information.\n" ++
  "    - After the answer, cite all sources provided in the format.\n\n" ++
  "    User\x27s Original Question: \"" ++ question ++ "\"\n" ++
  "    Extracted Quotes:\n    - " ++ joinWith "\n- " (answers.sort (· ≤ ·)) ++
  "\n    Sources: " ++ joinWith ", " (((metas.map (·.source_file)).toFinset).sort (· ≤ ·)) ++
  "\n    Synthesized Answer:\n    "

/-- Shallow embedding of `query_rag_pipeline`. `get_collection` raises on an
unknown collection name, hence the `Except`; the nearest-neighbour query is
the `vquery` collaborator, called with the stored entries, the question
embedding and `n_results = 5`, returning ranked (document, metadata) rows. -/
def query_rag_pipeline (O : Oracles) (question collection_name role : String)
    (chat_history : List (String × String)) (store : Store) : Except String QueryResult :=
  if is_query_relevant_for_role O question role = false then
    .ok { answer := offTopicAnswer role, sources := [] }
  else
    match store.lookup collection_name with
    | none => .error ("Collection " ++ collection_name ++ " does not exist.")
    | some coll =>
      let questionEmbedding := O.encode question
      let results := O.vquery coll questionEmbedding 5
      let sources := results.map Prod.snd
      let contextDocs := results.map Prod.fst
      if contextDocs.isEmpty then
        .ok { answer := noInfoAnswer, sources := [] }
      else
        let context := joinWith " " contextDocs
        let generated := O.llm (subQuestionPrompt question) 100
        let subQs := probeList generated question
        let answers := extractedAnswers O subQs context
        if answers = ∅ then
          .ok { answer := noConfidentAnswer role, sources := [] }
        else
          let finalAnswer := O.llm (synthesisPrompt role question answers sources) 512
          .ok { answer := finalAnswer, sources := uniqueSources sources }

/-! Basic facts about the string utilities. -/

theorem string_mk_inj {l l' : List Char} (h : (⟨l⟩ : String) = ⟨l'⟩) : l = l' :=
  congrArg String.data h

theorem string_data_inj {s t : String} (h : s.data = t.data) : s = t := by
  cases s
  cases t
  exact congrArg String.mk h

theorem pyStrip_eq_nil_iff {cs l : List Char} :
    pyStrip cs l = [] ↔ ∀ c ∈ l, cs.contains c = true := by
  unfold pyStrip
  rw [List.reverse_eq_nil_iff, List.dropWhile_eq_nil_iff]
  constructor
  · intro h c hc
    rcases List.mem_append.mp
        (by rw [List.takeWhile_append_dropWhile (p := fun c => cs.contains c)]; exact hc) with
      h1 | h2
    · exact List.mem_takeWhile_imp h1
    · exact h c (List.mem_reverse.mpr h2)
  · intro h c hc
    exact h c ((List.dropWhile_sublist _).subset (List.mem_reverse.mp hc))

theorem stripWs_eq_empty_iff {s : String} :
    stripWs s = "" ↔ ∀ c ∈ s.data, wsChars.contains c = true := by
  unfold stripWs
  constructor
  · intro h
    exact pyStrip_eq_nil_iff.mp (by simpa using congrArg String.data h)
  · intro h
    have h2 : pyStrip wsChars s.data = [] := pyStrip_eq_nil_iff.mpr h
    exact string_data_inj h2

theorem stripWs_ne_empty_iff {s : String} :
    stripWs s ≠ "" ↔ s.data.any (fun c => !wsChars.contains c) = true := by
  rw [Ne, stripWs_eq_empty_iff]
  simp

/-! Decimal rendering: characterisation and injectivity of `natStr`,
and injectivity of the chunk-id format. -/

theorem natStrAux_eq {f n : ℕ} (h : n < f) :
    natStrAux f n = if n = 0 then ['0'] else ((Nat.digits 10 n).map Nat.digitChar).reverse := by
  induction f generalizing n with
  | zero => omega
  | succ f ih =>
    rw [natStrAux]
    by_cases h10 : n < 10
    · rw [if_pos h10]
      by_cases h0 : n = 0
      · subst h0
        rfl
      · rw [if_neg h0]
        rw [Nat.digits_def' (by norm_num) (Nat.pos_of_ne_zero h0)]
        rw [Nat.mod_eq_of_lt h10, Nat.div_eq_of_lt h10]
        simp
    · rw [if_neg h10, if_neg (by omega)]
      rw [Nat.digits_def' (by norm_num : (1:ℕ) < 10) (show 0 < n by omega)]
      have hq : n / 10 < f := lt_of_lt_of_le (Nat.div_lt_self (by omega) (by norm_num)) (by omega)
      rw [ih hq, if_neg (by omega)]
      simp

theorem natStr_data (n : ℕ) :
    (natStr n).data = if n = 0 then ['0'] else ((Nat.digits 10 n).map Nat.digitChar).reverse :=
  natStrAux_eq (Nat.lt_succ_self n)

theorem digitChar_inj_lt : ∀ d < 10, ∀ e < 10, Nat.digitChar d = Nat.digitChar e → d = e := by
  decide

theorem digitChar_ne_underscore : ∀ d < 10, Nat.digitChar d ≠ '_' := by
  decide

theorem map_digitChar_inj :
    ∀ {l l' : List ℕ}, (∀ x ∈ l, x < 10) → (∀ x ∈ l', x < 10) →
      l.map Nat.digitChar = l'.map Nat.digitChar → l = l' := by
  intro l
  induction l with
  | nil =>
    intro l' _ _ h
    cases l' with
    | nil => rfl
    | cons b bs => simp at h
  | cons a as ih =>
    intro l' hl hl' h
    cases l' with
    | nil => simp at h
    | cons b bs =>
      simp only [List.map_cons, List.cons.injEq] at h
      have ha := digitChar_inj_lt a (hl a (by simp)) b (hl' b (by simp)) h.1
      have := ih (fun x hx => hl x (by simp [hx])) (fun x hx => hl' x (by simp [hx])) h.2
      rw [ha, this]

theorem underscore_not_mem_natStr (n : ℕ) : '_' ∉ (natStr n).data := by
  rw [natStr_data]
  by_cases h0 : n = 0
  · rw [if_pos h0]
    decide
  · rw [if_neg h0]
    intro hmem
    rw [List.mem_reverse, List.mem_map] at hmem
    obtain ⟨d, hd, hd2⟩ := hmem
    exact digitChar_ne_underscore d (Nat.digits_lt_base (by norm_num) hd) hd2

theorem digits_map_digitChar_eq_zero {n : ℕ}
    (h : (Nat.digits 10 n).map Nat.digitChar = ['0']) : n = 0 := by
  rcases hds : Nat.digits 10 n with - | ⟨d, rest⟩
  · rw [hds] at h
    simp at h
  · rw [hds] at h
    cases rest with
    | cons e rest2 => simp at h
    | nil =>
      simp only [List.map_cons, List.map_nil, List.cons.injEq, and_true] at h
      have hdlt : d < 10 := Nat.digits_lt_base (by norm_num) (by rw [hds]; simp)
      have hd0 : d = 0 := digitChar_inj_lt d hdlt 0 (by norm_num) (by rw [h]; rfl)
      subst hd0
      have hn := Nat.ofDigits_digits 10 n
      rw [hds] at hn
      simpa [Nat.ofDigits] using hn.symm

theorem natStr_inj {m n : ℕ} (h : natStr m = natStr n) : m = n := by
  have hd := congrArg String.data h
  rw [natStr_data, natStr_data] at hd
  by_cases hm : m = 0 <;> by_cases hn : n = 0
  · omega
  · exfalso
    rw [if_pos hm, if_neg hn] at hd
    have h2 : (Nat.digits 10 n).map Nat.digitChar = ['0'] := by
      have := congrArg List.reverse hd
      simpa using this.symm
    exact hn (digits_map_digitChar_eq_zero h2)
  · exfalso
    rw [if_neg hm, if_pos hn] at hd
    have h2 : (Nat.digits 10 m).map Nat.digitChar = ['0'] := by
      have := congrArg List.reverse hd
      simpa using this
    exact hm (digits_map_digitChar_eq_zero h2)
  · rw [if_neg hm, if_neg hn] at hd
    have h1 := List.reverse_injective hd
    have h2 := map_digitChar_inj
      (fun x hx => Nat.digits_lt_base (by norm_num) hx)
      (fun x hx => Nat.digits_lt_base (by norm_num) hx) h1
    exact Nat.digits.injective 10 h2

theorem sep_split {xs ys zs ws : List Char} (hx : '_' ∉ xs) (hy : '_' ∉ ys)
    (h : xs ++ '_' :: zs = ys ++ '_' :: ws) : xs = ys ∧ zs = ws := by
  induction xs generalizing ys with
  | nil =>
    cases ys with
    | nil => simpa using h
    | cons b bs =>
      simp only [List.nil_append, List.cons_append, List.cons.injEq] at h
      exfalso
      apply hy
      rw [← h.1]
      exact List.mem_cons_self _ _
  | cons a as ih =>
    cases ys with
    | nil =>
      simp only [List.nil_append, List.cons_append, List.cons.injEq] at h
      exfalso
      apply hx
      rw [h.1]
      exact List.mem_cons_self _ _
    | cons b bs =>
      simp only [List.cons_append, List.cons.injEq] at h
      have hrec := ih (fun hm => hx (List.mem_cons_of_mem a hm))
        (fun hm => hy (List.mem_cons_of_mem b hm)) h.2
      exact ⟨by rw [h.1, hrec.1], hrec.2⟩

theorem chunkId_data (x y : ℕ) :
    (chunkId x y).data
      = "doc".data ++ ((natStr x).data ++ ('_' :: ("chunk".data ++ (natStr y).data))) := by
  show (("doc" ++ natStr x ++ "_chunk") ++ natStr y).data = _
  simp only [String.data_append, List.append_assoc]
  rfl

theorem chunkId_inj {a b c d : ℕ} (h : chunkId a b = chunkId c d) : a = c ∧ b = d := by
  have hd := congrArg String.data h
  rw [chunkId_data, chunkId_data] at hd
  have h2 := List.append_cancel_left hd
  obtain ⟨h4, h5⟩ := sep_split (underscore_not_mem_natStr a) (underscore_not_mem_natStr c) h2
  have h6 := List.append_cancel_left h5
  exact ⟨natStr_inj (string_data_inj h4), natStr_inj (string_data_inj h6)⟩

/-! Chunking lemmas. -/

theorem mem_chunkStarts {n i : ℕ} : i ∈ chunkStarts n ↔ 800 ∣ i ∧ i < n := by
  unfold chunkStarts
  simp only [List.mem_map, List.mem_range]
  constructor
  · rintro ⟨k, hk, rfl⟩
    have h1 : (k + 1) * 800 ≤ n + 799 := (Nat.le_div_iff_mul_le (by norm_num)).mp hk
    exact ⟨dvd_mul_left 800 k, by omega⟩
  · rintro ⟨⟨k, rfl⟩, hlt⟩
    refine ⟨k, ?_, by ring⟩
    have h1 : (k + 1) * 800 ≤ n + 799 := by omega
    have h2 := (Nat.le_div_iff_mul_le (by norm_num : 0 < 800)).mpr h1
    omega

theorem window_covers {text : String} {p : ℕ} (hp : p < text.data.length) :
    ∃ i, i ∈ chunkStarts text.data.length ∧ i ≤ p ∧ p < i + 1000 ∧
      (pyWindow text i).data[p - i]? = text.data[p]? := by
  have hdm := Nat.div_add_mod p 800
  have hmod : p % 800 < 800 := Nat.mod_lt p (by norm_num)
  refine ⟨800 * (p / 800), ?_, by omega, by omega, ?_⟩
  · exact mem_chunkStarts.mpr ⟨dvd_mul_right 800 (p / 800), by omega⟩
  · show ((text.data.drop (800 * (p / 800))).take 1000)[p - 800 * (p / 800)]? = text.data[p]?
    rw [List.getElem?_take_of_lt (by omega), List.getElem?_drop]
    congr 1
    omega

theorem mem_makeChunks_iff {text : String} {w : String} :
    w ∈ makeChunks text
      ↔ ∃ i, i ∈ chunkStarts text.data.length ∧ stripWs (pyWindow text i) ≠ ""
          ∧ w = pyWindow text i := by
  simp only [makeChunks, List.mem_filterMap]
  constructor
  · rintro ⟨i, hi, hw⟩
    by_cases hc : stripWs (pyWindow text i) = ""
    · rw [if_pos hc] at hw
      cases hw
    · rw [if_neg hc] at hw
      exact ⟨i, hi, hc, (Option.some.inj hw).symm⟩
  · rintro ⟨i, hi, hc, rfl⟩
    exact ⟨i, hi, by rw [if_neg hc]⟩

theorem makeChunks_eq_filter (text : String) :
    makeChunks text
      = ((chunkStarts text.data.length).filter fun i =>
          (pyWindow text i).data.any fun c => !wsChars.contains c).map (pyWindow text) := by
  unfold makeChunks
  induction chunkStarts text.data.length with
  | nil => rfl
  | cons i l ih =>
    rw [List.filterMap_cons, List.filter_cons]
    by_cases hc : stripWs (pyWindow text i) = ""
    · have hany : ((pyWindow text i).data.any fun c => !wsChars.contains c) = false := by
        by_contra hne
        exact (stripWs_ne_empty_iff.mpr (by simpa using hne)) hc
      rw [if_pos hc, hany]
      simpa using ih
    · have hany := stripWs_ne_empty_iff.mp hc
      rw [if_neg hc, hany, ih]
      simp

theorem makeChunks_not_whitespace {text w : String} (hw : w ∈ makeChunks text) :
    ∃ c ∈ w.data, (!wsChars.contains c) = true := by
  obtain ⟨i, -, hc, rfl⟩ := mem_makeChunks_iff.mp hw
  simpa using List.any_eq_true.mp (stripWs_ne_empty_iff.mp hc)

/-! The extracted-answer set. -/

theorem mem_extractedAnswers_foldl (O : Oracles) (ctx : String) :
    ∀ (qs : List String) (acc : Finset String) (a : String),
      a ∈ qs.foldl (fun acc q =>
          let r := O.qa q ctx
          if r.2 > confidenceThreshold then
            let clean := stripAnswer r.1
            if clean ≠ "" then insert clean acc else acc
          else acc) acc
        ↔ a ∈ acc ∨ ∃ q ∈ qs, (O.qa q ctx).2 > confidenceThreshold
            ∧ stripAnswer (O.qa q ctx).1 = a ∧ a ≠ "" := by
  intro qs
  induction qs with
  | nil =>
    intro acc a
    simp
  | cons q qs ih =>
    intro acc a
    rw [List.foldl_cons, ih]
    by_cases h1 : (O.qa q ctx).2 > confidenceThreshold
    · by_cases h2 : stripAnswer (O.qa q ctx).1 ≠ ""
      · simp only [if_pos h1, if_pos h2, Finset.mem_insert]
        constructor
        · rintro (h | h)
          · rcases h with h | h
            · exact Or.inr ⟨q, List.mem_cons_self q qs, h1, h.symm, by rw [h]; exact h2⟩
            · exact Or.inl h
          · rcases h with ⟨q', hq', hcond⟩
            exact Or.inr ⟨q', List.mem_cons_of_mem q hq', hcond⟩
        · rintro (h | ⟨q', hq', hc1, hc2, hc3⟩)
          · exact Or.inl (Or.inr h)
          · rcases List.mem_cons.mp hq' with rfl | hq'
            · exact Or.inl (Or.inl hc2.symm)
            · exact Or.inr ⟨q', hq', hc1, hc2, hc3⟩
      · simp only [if_pos h1, if_neg h2]
        constructor
        · rintro (h | ⟨q', hq', hcond⟩)
          · exact Or.inl h
          · exact Or.inr ⟨q', List.mem_cons_of_mem q hq', hcond⟩
        · rintro (h | ⟨q', hq', hc1, hc2, hc3⟩)
          · exact Or.inl h
          · rcases List.mem_cons.mp hq' with rfl | hq'
            · exact absurd (by rw [hc2]; exact hc3) h2
            · exact Or.inr ⟨q', hq', hc1, hc2, hc3⟩
    · simp only [if_neg h1]
      constructor
      · rintro (h | ⟨q', hq', hcond⟩)
        · exact Or.inl h
        · exact Or.inr ⟨q', List.mem_cons_of_mem q hq', hcond⟩
      · rintro (h | ⟨q', hq', hc1, hc2, hc3⟩)
        · exact Or.inl h
        · rcases List.mem_cons.mp hq' with rfl | hq'
          · exact absurd hc1 h1
          · exact Or.inr ⟨q', hq', hc1, hc2, hc3⟩

theorem mem_extractedAnswers {O : Oracles} {qs : List String} {ctx a : String} :
    a ∈ extractedAnswers O qs ctx
      ↔ ∃ q ∈ qs, (O.qa q ctx).2 > confidenceThreshold
          ∧ stripAnswer (O.qa q ctx).1 = a ∧ a ≠ "" := by
  unfold extractedAnswers
  rw [mem_extractedAnswers_foldl]
  simp

theorem extractedAnswers_perm {O : Oracles} {ctx : String} {qs qs' : List String}
    (h : qs.Perm qs') : extractedAnswers O qs ctx = extractedAnswers O qs' ctx := by
  ext a
  rw [mem_extractedAnswers, mem_extractedAnswers]
  constructor <;> rintro ⟨q, hq, hc⟩
  · exact ⟨q, h.mem_iff.mp hq, hc⟩
  · exact ⟨q, h.mem_iff.mpr hq, hc⟩

/-! Source assembly. -/

theorem uniqueSourcesLoop_eq :
    ∀ (metas : List ChunkMeta) (acc : List SourceRef) (seen : List String),
      uniqueSourcesLoop acc seen metas
        = acc ++ dedupByFile (metas.filter fun m => !(seen.contains m.source_file)) := by
  intro metas
  induction metas with
  | nil =>
    intro acc seen
    simp [uniqueSourcesLoop, dedupByFile]
  | cons m rest ih =>
    intro acc seen
    rw [uniqueSourcesLoop, List.filter_cons]
    by_cases hc : m.source_file ∈ seen
    · have hct : seen.contains m.source_file = true := by simpa using hc
      rw [if_pos hct, hct]
      rw [show (!true) = false from rfl, if_neg (by simp)]
      exact ih acc seen
    · have hcf : seen.contains m.source_file = false := by simpa using hc
      rw [if_neg (by simpa using hc), hcf]
      rw [show (!false) = true from rfl, if_pos rfl]
      have hih := ih (acc ++ [SourceRef.mk m.source_file (m.doc_type.getD "N/A")])
        (m.source_file :: seen)
      rw [hih, List.append_assoc, List.singleton_append]
      congr 1
      rw [dedupByFile]
      congr 1
      rw [List.filter_filter]
      congr 1
      apply List.filter_congr
      intro s _
      simp only [List.contains_cons, Bool.not_or, Bool.and_comm]

theorem uniqueSources_eq_dedupByFile (metas : List ChunkMeta) :
    uniqueSources metas = dedupByFile metas := by
  unfold uniqueSources
  rw [uniqueSourcesLoop_eq]
  simp [List.contains]

theorem uniqueSources_ne_nil {metas : List ChunkMeta} (h : metas ≠ []) :
    uniqueSources metas ≠ [] := by
  rw [uniqueSources_eq_dedupByFile]
  cases metas with
  | nil => exact absurd rfl h
  | cons m rest => simp [dedupByFile]

/-! The probe list. -/

theorem probeList_ne_nil (g q : String) : probeList g q ≠ [] := by
  simp [probeList]

theorem probeList_getLast (g q : String) : (probeList g q).getLast? = some q := by
  unfold probeList
  exact List.getLast?_concat _

theorem mem_probeList {g q p : String} :
    p ∈ probeList g q
      ↔ p = q ∨ ∃ l ∈ splitLines g.data,
          stripWs ⟨l⟩ = p ∧ stripWs ⟨l⟩ ≠ "" ∧ l.contains '?' = true := by
  simp only [probeList, parseSubQuestions, List.mem_append, List.mem_filterMap,
    List.mem_singleton]
  constructor
  · rintro (⟨l, hl, hite⟩ | rfl)
    · by_cases hc : stripWs ⟨l⟩ ≠ "" ∧ l.contains '?' = true
      · rw [if_pos hc] at hite
        exact Or.inr ⟨l, hl, Option.some.inj hite, hc.1, hc.2⟩
      · rw [if_neg hc] at hite
        cases hite
    · exact Or.inl rfl
  · rintro (rfl | ⟨l, hl, heq, hne, hq⟩)
    · exact Or.inr rfl
    · exact Or.inl ⟨l, hl, by rw [if_pos ⟨hne, hq⟩, heq]⟩

/-! String-literal disambiguation of the three canned answers. -/

theorem head_append_of_head {l₁ l₂ : List Char} {c : Char} (h : l₁.head? = some c) :
    (l₁ ++ l₂).head? = some c := by
  cases l₁ with
  | nil => cases h
  | cons a as => simpa using h

theorem string_ne_of_head {s t : String} (h : s.data.head? ≠ t.data.head?) : s ≠ t :=
  fun he => h (by rw [he])

theorem offTopicAnswer_head (role : String) : (offTopicAnswer role).data.head? = some 'T' := by
  unfold offTopicAnswer
  rw [String.data_append, String.data_append]
  exact head_append_of_head (head_append_of_head rfl)

theorem noConfidentAnswer_head (role : String) :
    (noConfidentAnswer role).data.head? = some 'I' := by
  unfold noConfidentAnswer
  rw [String.data_append, String.data_append]
  exact head_append_of_head (head_append_of_head rfl)

theorem noInfoAnswer_head : noInfoAnswer.data.head? = some 'C' := rfl

/-! The relevance gate. -/

theorem is_query_relevant_false_iff {O : Oracles} {query role : String} :
    is_query_relevant_for_role O query role = false
      ↔ ∃ topics m, ROLE_TOPICS.lookup role = some topics
          ∧ (topics.map (O.relScore query)).max? = some m ∧ m ≤ relevanceThreshold := by
  unfold is_query_relevant_for_role
  cases hlk : ROLE_TOPICS.lookup role with
  | none => simp
  | some topics =>
    cases hmx : (topics.map (O.relScore query)).max? with
    | none => simp [hmx]
    | some m => simp [hmx, not_lt, decide_eq_false_iff_not]

/-! Ingestion lemmas. -/

theorem enum_map_fst_fun {α β : Type} (l : List α) (g : ℕ → β) :
    l.enum.map (fun pr => g pr.1) = (List.range l.length).map g := by
  have h1 : l.enum.map (fun pr => g pr.1) = (l.enum.map Prod.fst).map g := by
    rw [List.map_map]
    rfl
  rw [h1, List.enum_map_fst]

theorem buildRows_error_of_extract_error {O : Oracles} {files : List String} {f e : String}
    (hf : f ∈ files) (he : O.extract f = .error e) :
    ∀ d, ∃ msg, buildRows O d files = .error msg := by
  induction files with
  | nil => cases hf
  | cons g gs ih =>
    intro d
    rcases List.mem_cons.mp hf with rfl | hf'
    · exact ⟨"Could not read the PDF file " ++ baseName f ++ ". Error: " ++ e,
        by rw [buildRows, he]⟩
    · cases hx : O.extract g with
      | error e2 =>
        exact ⟨"Could not read the PDF file " ++ baseName g ++ ". Error: " ++ e2,
          by rw [buildRows, hx]⟩
      | ok pages =>
        obtain ⟨msg, hmsg⟩ := ih hf' (d + 1)
        refine ⟨msg, ?_⟩
        rw [buildRows, hx]
        simp only [hmsg]

theorem buildRows_ids {O : Oracles} {files : List String} :
    ∀ {d : ℕ} {rows : List ChunkRow}, buildRows O d files = .ok rows →
      rows.map (fun r => r.id) = specIdsFrom O d files := by
  induction files with
  | nil =>
    intro d rows h
    rw [buildRows] at h
    cases h
    rfl
  | cons f fs ih =>
    intro d rows h
    rw [buildRows] at h
    cases hx : O.extract f with
    | error e =>
      rw [hx] at h
      cases h
    | ok pages =>
      rw [hx] at h
      cases hrec : buildRows O (d + 1) fs with
      | error e =>
        simp only [hrec] at h
        cases h
      | ok rest =>
        simp only [hrec] at h
        cases h
        simp only [specIdsFrom, hx]
        rw [List.map_append]
        by_cases hws : stripWs (pagesText pages) = ""
        · rw [if_pos hws, if_pos hws]
          simp only [List.nil_append, List.map_nil]
          exact ih hrec
        · rw [if_neg hws, if_neg hws]
          congr 1
          · rw [List.map_map]
            exact enum_map_fst_fun (makeChunks (pagesText pages)) (fun j => chunkId d (j + 1))
          · exact ih hrec

theorem buildRows_meta_chunk_id {O : Oracles} {files : List String} :
    ∀ {d : ℕ} {rows : List ChunkRow}, buildRows O d files = .ok rows →
      ∀ r ∈ rows, r.metadata.chunk_id = r.id := by
  induction files with
  | nil =>
    intro d rows h
    rw [buildRows] at h
    cases h
    intro r hr
    cases hr
  | cons f fs ih =>
    intro d rows h
    rw [buildRows] at h
    cases hx : O.extract f with
    | error e =>
      rw [hx] at h
      cases h
    | ok pages =>
      rw [hx] at h
      cases hrec : buildRows O (d + 1) fs with
      | error e =>
        simp only [hrec] at h
        cases h
      | ok rest =>
        simp only [hrec] at h
        cases h
        intro r hr
        rcases List.mem_append.mp hr with hl | hrt
        · by_cases hws : stripWs (pagesText pages) = ""
          · rw [if_pos hws] at hl
            cases hl
          · rw [if_neg hws] at hl
            obtain ⟨pr, -, rfl⟩ := List.mem_map.mp hl
            rfl
        · exact ih hrec r hrt

theorem mem_specIdsFrom {O : Oracles} {files : List String} :
    ∀ {d : ℕ} {s : String}, s ∈ specIdsFrom O d files →
      ∃ dd j, d ≤ dd ∧ 1 ≤ j ∧ s = chunkId dd j := by
  induction files with
  | nil =>
    intro d s h
    rw [specIdsFrom] at h
    cases h
  | cons f fs ih =>
    intro d s h
    rw [specIdsFrom] at h
    rcases List.mem_append.mp h with hl | hr
    · cases hx : O.extract f with
      | error e =>
        simp only [hx] at hl
        cases hl
      | ok pages =>
        simp only [hx] at hl
        by_cases hws : stripWs (pagesText pages) = ""
        · rw [if_pos hws] at hl
          cases hl
        · rw [if_neg hws] at hl
          obtain ⟨j, -, rfl⟩ := List.mem_map.mp hl
          exact ⟨d, j + 1, le_refl d, by omega, rfl⟩
    · obtain ⟨dd, j, hdd, hj, rfl⟩ := ih hr
      exact ⟨dd, j, by omega, hj, rfl⟩

theorem specIdsFrom_nodup {O : Oracles} {files : List String} :
    ∀ {d : ℕ}, (specIdsFrom O d files).Nodup := by
  induction files with
  | nil =>
    intro d
    rw [specIdsFrom]
    exact List.nodup_nil
  | cons f fs ih =>
    intro d
    have hinj : Function.Injective (fun j => chunkId d (j + 1)) := by
      intro j k h
      have := (chunkId_inj h).2
      omega
    cases hx : O.extract f with
    | error e =>
      simp only [specIdsFrom, hx, List.nil_append]
      exact ih
    | ok pages =>
      simp only [specIdsFrom, hx]
      by_cases hws : stripWs (pagesText pages) = ""
      · rw [if_pos hws]
        simpa using ih
      · rw [if_neg hws]
        refine List.Nodup.append ?_ ih ?_
        · exact (List.nodup_range _).map hinj
        · intro s hs hs'
          obtain ⟨dd, j, hdd, -, rfl⟩ := mem_specIdsFrom hs'
          obtain ⟨k, -, hk⟩ := List.mem_map.mp hs
          have := (chunkId_inj hk).1
          omega

/-! Store algebra for collection replacement. -/

theorem deleteIfExists_eq_filter (store : Store) (name : String) :
    deleteIfExists store name = store.filter fun c => !(c.1 == name) := by
  unfold deleteIfExists
  by_cases h : name ∈ store.map Prod.fst
  · rw [if_pos h]
  · rw [if_neg h]
    symm
    refine List.filter_eq_self.mpr fun c hc => ?_
    have hne : c.1 ≠ name := fun he => h (he ▸ List.mem_map_of_mem Prod.fst hc)
    simpa using hne

theorem process_of_buildRows_error {O : Oracles} {files : List String} {name e : String}
    {store : Store} (h : buildRows O 1 files = .error e) :
    process_documents_and_create_collection O files name store = (.error e, store) := by
  simp only [process_documents_and_create_collection, h]

theorem process_of_no_rows {O : Oracles} {files : List String} {name : String}
    {store : Store} (h : buildRows O 1 files = .ok []) :
    process_documents_and_create_collection O files name store
      = (.error "No text could be extracted from the provided documents.", store) := by
  simp only [process_documents_and_create_collection, h, List.isEmpty_nil, if_pos]

theorem process_of_rows {O : Oracles} {files : List String} {name : String}
    {store : Store} {rows : List ChunkRow} (h : buildRows O 1 files = .ok rows)
    (hne : rows ≠ []) :
    process_documents_and_create_collection O files name store
      = (.ok (), deleteIfExists store name
          ++ [(name, rows.map fun r =>
                Entry.mk r.id (O.encode r.chunk) r.chunk r.metadata)]) := by
  simp only [process_documents_and_create_collection, h]
  rw [if_neg (by simpa [List.isEmpty_iff] using hne)]

/-! Branch behaviour of the query pipeline. -/

theorem query_offTopic {O : Oracles} {store : Store} {question name role : String}
    {history : List (String × String)}
    (h : is_query_relevant_for_role O question role = false) :
    query_rag_pipeline O question name role history store
      = .ok ⟨offTopicAnswer role, []⟩ := by
  unfold query_rag_pipeline
  rw [if_pos h]

theorem query_not_offTopic {O : Oracles} {store : Store} {question name role : String}
    {history : List (String × String)}
    (h : is_query_relevant_for_role O question role = true) :
    query_rag_pipeline O question name role history store
      ≠ .ok ⟨offTopicAnswer role, []⟩ := by
  unfold query_rag_pipeline
  rw [if_neg (by simp [h])]
  cases hlk : store.lookup name with
  | none => exact fun hh => Except.noConfusion hh
  | some coll =>
    intro hh
    by_cases hempty : ((O.vquery coll (O.encode question) 5).map Prod.fst).isEmpty = true
    · simp only [hempty, if_true] at hh
      have h1 := congrArg QueryResult.answer (Except.ok.inj hh)
      exact string_ne_of_head
        (by rw [noInfoAnswer_head, offTopicAnswer_head]; simp) h1
    · simp only [hempty, if_false] at hh
      by_cases hans : extractedAnswers O
          (probeList (O.llm (subQuestionPrompt question) 100) question)
          (joinWith " " ((O.vquery coll (O.encode question) 5).map Prod.fst)) = ∅
      · simp only [hans, if_true] at hh
        have h1 := congrArg QueryResult.answer (Except.ok.inj hh)
        exact string_ne_of_head
          (by rw [noConfidentAnswer_head, offTopicAnswer_head]; simp) h1
      · simp only [hans, if_false] at hh
        have h1 := congrArg QueryResult.sources (Except.ok.inj hh)
        have hne : (O.vquery coll (O.encode question) 5).map Prod.snd ≠ [] := by
          intro hnil
          rw [List.map_eq_nil_iff] at hnil
          rw [hnil] at hempty
          exact hempty rfl
        exact uniqueSources_ne_nil hne h1

theorem query_noConfident {O : Oracles} {store : Store} {question name role : String}
    {history : List (String × String)} {coll : List Entry}
    (hrel : is_query_relevant_for_role O question role = true)
    (hlk : store.lookup name = some coll)
    (hne : O.vquery coll (O.encode question) 5 ≠ [])
    (hemp : extractedAnswers O
        (probeList (O.llm (subQuestionPrompt question) 100) question)
        (joinWith " " ((O.vquery coll (O.encode question) 5).map Prod.fst)) = ∅) :
    query_rag_pipeline O question name role history store
      = .ok ⟨noConfidentAnswer role, []⟩ := by
  unfold query_rag_pipeline
  rw [if_neg (by simp [hrel])]
  simp only [hlk]
  have h1 : ¬ ((O.vquery coll (O.encode question) 5).map Prod.fst).isEmpty = true := by
    simp only [List.isEmpty_iff, List.map_eq_nil_iff]
    exact hne
  simp only [h1, if_false, hemp, if_true]
  rfl

/-! Concrete collaborator bundles used to instantiate the theorems on closed
inputs. -/

/-- A deterministic collaborator bundle: one readable single-page document,
low zero-shot scores, a QA model that never answers confidently. -/
def demoOracles : Oracles where
  extract := fun _ => .ok ["Revenue grew 20 percent in Q3"]
  classify := fun _ => "financial_report"
  ner := fun _ => .ok []
  encode := fun _ => []
  relScore := fun _ _ => mkRat 1 10
  qa := fun _ _ => ("", 0)
  llm := fun _ _ => ""
  vquery := fun _ _ _ => []

/-- A bundle whose text extractor fails on every file. -/
def failingOracles : Oracles :=
  { demoOracles with extract := fun _ => .error "unreadable" }

/-- A bundle whose QA model returns the spans of the deduplication example. -/
def c4Oracles : Oracles :=
  { demoOracles with
    qa := fun q _ =>
      if q = "p1" then ("A", mkRat 1 2)
      else if q = "p2" then ("a", mkRat 1 2)
      else ("A ", mkRat 1 2) }

/-- A bundle that passes the relevance gate and retrieves one chunk, while its
QA model stays below the confidence threshold. -/
def c3Oracles : Oracles :=
  { demoOracles with
    relScore := fun _ _ => mkRat 1 2
    vquery := fun _ _ _ =>
      [("some retrieved text", ChunkMeta.mk (some "report") [] "doc.pdf" "doc1_chunk1")] }

/-! The claims. -/

/-- C1: for every document text, the emitted chunks are exactly the windows
`text[i:i+1000]` for `i = 0, 800, 1600, ...` that contain at least one
non-whitespace character; every non-whitespace character position of the text
lies inside some emitted chunk, and no emitted chunk is entirely whitespace. -/
theorem C1_chunking (text : String) :
    (∀ i, i ∈ chunkStarts text.data.length ↔ 800 ∣ i ∧ i < text.data.length)
    ∧ makeChunks text
        = ((chunkStarts text.data.length).filter fun i =>
            (pyWindow text i).data.any fun c => !wsChars.contains c).map (pyWindow text)
    ∧ (∀ p c, text.data[p]? = some c → wsChars.contains c = false →
        ∃ i, i ∈ chunkStarts text.data.length ∧ i ≤ p ∧ p < i + 1000
          ∧ pyWindow text i ∈ makeChunks text
          ∧ (pyWindow text i).data[p - i]? = some c)
    ∧ (∀ w ∈ makeChunks text, ∃ c ∈ w.data, (!wsChars.contains c) = true) := by
  refine ⟨fun i => mem_chunkStarts, makeChunks_eq_filter text, ?_,
    fun w hw => makeChunks_not_whitespace hw⟩
  intro p c hp hws
  have hplen : p < text.data.length := by
    by_contra hge
    rw [List.getElem?_eq_none (by omega)] at hp
    cases hp
  obtain ⟨i, hi, hip, hlt, hwin⟩ := window_covers hplen
  have hwc : (pyWindow text i).data[p - i]? = some c := by rw [hwin, hp]
  refine ⟨i, hi, hip, hlt, ?_, hwc⟩
  apply mem_makeChunks_iff.mpr
  refine ⟨i, hi, ?_, rfl⟩
  rw [stripWs_ne_empty_iff]
  apply List.any_eq_true.mpr
  exact ⟨c, List.getElem?_mem hwc, by rw [hws]; rfl⟩

/-- Witness for C1 at the concrete text `"ab"`, position 0. -/
theorem C1_chunking_witness :
    ∃ i, i ∈ chunkStarts ("ab" : String).data.length ∧ i ≤ 0 ∧ 0 < i + 1000
      ∧ pyWindow "ab" i ∈ makeChunks "ab"
      ∧ (pyWindow "ab" i).data[0 - i]? = some 'a' :=
  (C1_chunking "ab").2.2.1 0 'a' (by decide) (by decide)

/-- C2: the query pipeline returns the off-topic short-circuit result with
empty sources exactly when the role is a known one whose highest zero-shot
topic score is at most 0.2; a role outside the table always passes the gate. -/
theorem C2_gate_short_circuit :
    ∀ (O : Oracles) (store : Store) (question name role : String)
      (history : List (String × String)),
      (query_rag_pipeline O question name role history store
          = .ok ⟨offTopicAnswer role, []⟩
        ↔ ∃ topics m, ROLE_TOPICS.lookup role = some topics
            ∧ (topics.map (O.relScore question)).max? = some m
            ∧ m ≤ relevanceThreshold)
      ∧ (ROLE_TOPICS.lookup role = none
          → is_query_relevant_for_role O question role = true) := by
  intro O store question name role history
  constructor
  · constructor
    · intro h
      by_cases hrel : is_query_relevant_for_role O question role = false
      · exact is_query_relevant_false_iff.mp hrel
      · have ht : is_query_relevant_for_role O question role = true := by
          revert hrel
          cases is_query_relevant_for_role O question role <;> simp
        exact absurd h (query_not_offTopic ht)
    · intro h
      exact query_offTopic (is_query_relevant_false_iff.mpr h)
  · intro h
    unfold is_query_relevant_for_role
    rw [h]

/-- Witness for C2: a known role with constant topic score 0.1 short-circuits. -/
theorem C2_gate_short_circuit_witness :
    query_rag_pipeline demoOracles "what changed" "s" "Tech Lead" [] []
      = .ok ⟨offTopicAnswer "Tech Lead", []⟩ :=
  (C2_gate_short_circuit demoOracles [] "what changed" "s" "Tech Lead" []).1.mpr
    ⟨["technical issues", "system performance", "integration status"], mkRat 1 10,
      by decide, by decide, by decide⟩

/-- C3: an extracted span is kept iff its confidence exceeds 0.1 and it is
non-empty after trimming `" ,.;:-"`; when the accumulated set stays empty the
pipeline returns the role-qualified no-confident-answer text with empty
sources as a successful (`ok`) response. -/
theorem C3_answer_filtering :
    ∀ O : Oracles,
      (∀ (qs : List String) (ctx a : String),
        a ∈ extractedAnswers O qs ctx
          ↔ ∃ q ∈ qs, (O.qa q ctx).2 > confidenceThreshold
              ∧ stripAnswer (O.qa q ctx).1 = a ∧ a ≠ "")
      ∧ (∀ (store : Store) (question name role : String)
          (history : List (String × String)) (coll : List Entry),
          is_query_relevant_for_role O question role = true →
          store.lookup name = some coll →
          O.vquery coll (O.encode question) 5 ≠ [] →
          extractedAnswers O
              (probeList (O.llm (subQuestionPrompt question) 100) question)
              (joinWith " " ((O.vquery coll (O.encode question) 5).map Prod.fst)) = ∅ →
          query_rag_pipeline O question name role history store
            = .ok ⟨noConfidentAnswer role, []⟩) := by
  intro O
  exact ⟨fun qs ctx a => mem_extractedAnswers,
    fun store question name role history coll h1 h2 h3 h4 =>
      query_noConfident h1 h2 h3 h4⟩

/-- Witness for C3: a relevant query over one retrieved chunk whose QA scores
never exceed the threshold yields the no-confident-answer response. -/
theorem C3_answer_filtering_witness :
    query_rag_pipeline c3Oracles "q" "s" "Tech Lead" [] [("s", [])]
      = .ok ⟨noConfidentAnswer "Tech Lead", []⟩ :=
  (C3_answer_filtering c3Oracles).2 [("s", [])] "q" "s" "Tech Lead" [] []
    (by decide) (by decide) (by decide) (by decide)

/-- C4 counterexample: with raw extracted spans `"A"`, `"a"`, `"A "`, the
accumulated set is not the singleton containing only `"A"` — the lowercase
`"a"` also survives exact (case-sensitive) deduplication. -/
theorem C4_counterexample :
    extractedAnswers c4Oracles ["p1", "p2", "p3"] "ctx" ≠ {"A"} := by
  decide

/-- C4 amended: answers are accumulated into an order-insensitive set keyed by
exact post-trim text equality; for the raw spans `"A"`, `"a"`, `"A "` the set
after trimming is exactly the two-element set containing `"A"` and `"a"`
(`"A "` collapses with `"A"`, while `"a"` stays distinct). -/
theorem C4_amended :
    (∀ (O : Oracles) (ctx : String) (qs qs' : List String),
      qs.Perm qs' → extractedAnswers O qs ctx = extractedAnswers O qs' ctx)
    ∧ extractedAnswers c4Oracles ["p1", "p2", "p3"] "ctx" = {"A", "a"} := by
  constructor
  · intro O ctx qs qs' h
    exact extractedAnswers_perm h
  · decide

/-- Witness for C4 at a concrete permutation of two probes. -/
theorem C4_amended_witness :
    extractedAnswers c4Oracles ["p1", "p2"] "ctx"
      = extractedAnswers c4Oracles ["p2", "p1"] "ctx" :=
  C4_amended.1 c4Oracles "ctx" ["p1", "p2"] ["p2", "p1"] (List.Perm.swap "p2" "p1" [])

/-- C5: the reported source list is the retrieved metadata deduplicated by
source filename, first occurrence winning, retrieval order preserved, each
element carrying that first occurrence's document type; files `[X, Y, X, Z]`
yield `[X, Y, Z]`. -/
theorem C5_source_dedup :
    (∀ metas : List ChunkMeta, uniqueSources metas = dedupByFile metas)
    ∧ uniqueSources
        [ChunkMeta.mk (some "t1") [] "X" "id1", ChunkMeta.mk (some "t2") [] "Y" "id2",
         ChunkMeta.mk (some "t3") [] "X" "id3", ChunkMeta.mk (some "t4") [] "Z" "id4"]
        = [SourceRef.mk "X" "t1", SourceRef.mk "Y" "t2", SourceRef.mk "Z" "t4"] := by
  exact ⟨uniqueSources_eq_dedupByFile, by decide⟩

/-- Witness for C5 at the empty metadata list. -/
theorem C5_source_dedup_witness :
    uniqueSources [] = dedupByFile [] :=
  C5_source_dedup.1 []

/-- C6: when text extraction fails for any submitted file, or when no chunk at
all is accumulated, ingestion returns a descriptive error and the vector store
is returned untouched — no collection under the session id is created or
modified. -/
theorem C6_failed_ingestion :
    ∀ (O : Oracles) (files : List String) (name : String) (store : Store),
      ((∃ f ∈ files, ∃ e, O.extract f = .error e) ∨ buildRows O 1 files = .ok []) →
      ∃ msg, process_documents_and_create_collection O files name store
        = (.error msg, store) := by
  intro O files name store h
  rcases h with ⟨f, hf, e, he⟩ | hempty
  · obtain ⟨msg, hmsg⟩ := buildRows_error_of_extract_error hf he 1
    exact ⟨msg, process_of_buildRows_error hmsg⟩
  · exact ⟨"No text could be extracted from the provided documents.",
      process_of_no_rows hempty⟩

/-- Witness for C6: a failing extractor aborts ingestion over an empty store. -/
theorem C6_failed_ingestion_witness :
    ∃ msg, process_documents_and_create_collection failingOracles ["x.pdf"] "s" []
      = (.error msg, []) :=
  C6_failed_ingestion failingOracles ["x.pdf"] "s" []
    (Or.inl ⟨"x.pdf", by simp, "unreadable", rfl⟩)

/-- C7: re-running a successful ingestion of the same document set under the
same session id succeeds and leaves the store exactly as it was after the
first run — in particular exactly one collection exists under that id (so its
chunk count is unchanged; the old collection is replaced, never appended to). -/
theorem C7_idempotent_reingestion :
    ∀ (O : Oracles) (files : List String) (name : String) (S0 S1 : Store),
      process_documents_and_create_collection O files name S0 = (.ok (), S1) →
      process_documents_and_create_collection O files name S1 = (.ok (), S1)
      ∧ (S1.filter fun c => c.1 == name).length = 1 := by
  intro O files name S0 S1 h
  cases hb : buildRows O 1 files with
  | error e =>
    rw [process_of_buildRows_error hb] at h
    cases h
  | ok rows =>
    by_cases hrows : rows = []
    · rw [hrows] at hb
      rw [process_of_no_rows hb] at h
      cases h
    · rw [process_of_rows hb hrows] at h
      have hS1 : S1 = deleteIfExists S0 name
          ++ [(name, rows.map fun r =>
                Entry.mk r.id (O.encode r.chunk) r.chunk r.metadata)] :=
        (congrArg Prod.snd h).symm
      have hdel : deleteIfExists S1 name = deleteIfExists S0 name := by
        rw [deleteIfExists_eq_filter, deleteIfExists_eq_filter, hS1,
          deleteIfExists_eq_filter, List.filter_append, List.filter_filter]
        simp [Bool.and_self]
      constructor
      · rw [process_of_rows hb hrows, hdel, hS1]
      · rw [hS1, List.filter_append, deleteIfExists_eq_filter, List.filter_filter]
        simp

/-- Witness for C7: a concrete one-file ingestion run twice. -/
theorem C7_idempotent_reingestion_witness :
    process_documents_and_create_collection demoOracles ["docs/a.pdf"] "s"
        (process_documents_and_create_collection demoOracles ["docs/a.pdf"] "s" []).2
      = (.ok (), (process_documents_and_create_collection demoOracles ["docs/a.pdf"] "s" []).2)
    ∧ ((process_documents_and_create_collection demoOracles ["docs/a.pdf"] "s" []).2.filter
        fun c => c.1 == "s").length = 1 := by
  have h1 : (process_documents_and_create_collection demoOracles ["docs/a.pdf"] "s" []).1
      = Except.ok () := rfl
  have h0 : process_documents_and_create_collection demoOracles ["docs/a.pdf"] "s" []
      = (Except.ok (),
        (process_documents_and_create_collection demoOracles ["docs/a.pdf"] "s" []).2) := by
    rw [← h1]
  exact C7_idempotent_reingestion demoOracles ["docs/a.pdf"] "s" [] _ h0

/-- C9: after a successful ingestion the collection stored under the session
id holds ids laid out as `doc{d}_chunk{c}` with both ordinals 1-based — `d`
the submission ordinal of the file, `c` the ordinal of the chunk within it
(`specIdsFrom O 1 files` is exactly that layout) — all ids are pairwise
distinct, and each entry's metadata carries its own chunk id. -/
theorem C9_chunk_ids :
    ∀ (O : Oracles) (files : List String) (name : String) (S0 S1 : Store),
      process_documents_and_create_collection O files name S0 = (.ok (), S1) →
      ∃ entries, (S1.filter fun c => c.1 == name) = [(name, entries)]
        ∧ entries.map (fun e => e.id) = specIdsFrom O 1 files
        ∧ (entries.map fun e => e.id).Nodup
        ∧ ∀ e ∈ entries, e.metadata.chunk_id = e.id := by
  intro O files name S0 S1 h
  cases hb : buildRows O 1 files with
  | error e =>
    rw [process_of_buildRows_error hb] at h
    cases h
  | ok rows =>
    by_cases hrows : rows = []
    · rw [hrows] at hb
      rw [process_of_no_rows hb] at h
      cases h
    · rw [process_of_rows hb hrows] at h
      have hS1 : S1 = deleteIfExists S0 name
          ++ [(name, rows.map fun r =>
                Entry.mk r.id (O.encode r.chunk) r.chunk r.metadata)] :=
        (congrArg Prod.snd h).symm
      refine ⟨rows.map fun r => Entry.mk r.id (O.encode r.chunk) r.chunk r.metadata,
        ?_, ?_, ?_, ?_⟩
      · rw [hS1, List.filter_append, deleteIfExists_eq_filter, List.filter_filter]
        simp
      · rw [List.map_map]
        exact buildRows_ids hb
      · rw [List.map_map]
        rw [show ((fun e : Entry => e.id)
            ∘ fun r : ChunkRow => Entry.mk r.id (O.encode r.chunk) r.chunk r.metadata)
          = fun r : ChunkRow => r.id from rfl]
        rw [buildRows_ids hb]
        exact specIdsFrom_nodup
      · intro e he
        obtain ⟨r, hr, rfl⟩ := List.mem_map.mp he
        exact buildRows_meta_chunk_id hb r hr

/-- Witness for C9: the same concrete one-file ingestion. -/
theorem C9_chunk_ids_witness :
    ∃ entries,
      ((process_documents_and_create_collection demoOracles ["docs/a.pdf"] "s" []).2.filter
          fun c => c.1 == "s") = [("s", entries)]
      ∧ entries.map (fun e => e.id) = specIdsFrom demoOracles 1 ["docs/a.pdf"]
      ∧ (entries.map fun e => e.id).Nodup
      ∧ ∀ e ∈ entries, e.metadata.chunk_id = e.id := by
  have h1 : (process_documents_and_create_collection demoOracles ["docs/a.pdf"] "s" []).1
      = Except.ok () := rfl
  have h0 : process_documents_and_create_collection demoOracles ["docs/a.pdf"] "s" []
      = (Except.ok (),
        (process_documents_and_create_collection demoOracles ["docs/a.pdf"] "s" []).2) := by
    rw [← h1]
  exact C9_chunk_ids demoOracles ["docs/a.pdf"] "s" [] _ h0

/-- C8: the probe list keeps, stripped, exactly the non-blank generated lines
containing a question mark, appends the original question as the final probe,
and is therefore never empty — extraction always runs at least once. -/
theorem C8_probe_list :
    ∀ generated question : String,
      probeList generated question ≠ []
      ∧ (probeList generated question).getLast? = some question
      ∧ (∀ p, p ∈ probeList generated question
          ↔ p = question ∨ ∃ l ∈ splitLines generated.data,
              stripWs ⟨l⟩ = p ∧ stripWs ⟨l⟩ ≠ "" ∧ l.contains '?' = true) := by
  intro g q
  exact ⟨probeList_ne_nil g q, probeList_getLast g q, fun p => mem_probeList⟩

/-- Witness for C8 at a concrete generated text. -/
theorem C8_probe_list_witness :
    probeList "What grew?\n\nnote" "original?" ≠ []
    ∧ (probeList "What grew?\n\nnote" "original?").getLast? = some "original?" :=
  ⟨(C8_probe_list "What grew?\n\nnote" "original?").1,
    (C8_probe_list "What grew?\n\nnote" "original?").2.1⟩

/-- C10: whenever the gate condition holds (known role, top score at most
0.2), the pipeline returns the off-topic answer with empty sources for every
store state — in particular it succeeds when no collection exists under the
session id — and for every collaborator bundle agreeing on the zero-shot
scorer, i.e. the vector index and the embedding encoder are never consulted. -/
theorem C10_gate_no_store_access :
    ∀ (O : Oracles) (question role : String) (topics : List String) (m : ℚ),
      ROLE_TOPICS.lookup role = some topics →
      (topics.map (O.relScore question)).max? = some m →
      m ≤ relevanceThreshold →
      ∀ (store : Store) (name : String) (history : List (String × String))
        (O' : Oracles), O'.relScore = O.relScore →
        query_rag_pipeline O' question name role history store
          = .ok ⟨offTopicAnswer role, []⟩ := by
  intro O question role topics m h1 h2 h3 store name history O' hrs
  apply query_offTopic
  apply is_query_relevant_false_iff.mpr
  refine ⟨topics, m, h1, ?_, h3⟩
  rw [hrs]
  exact h2

/-- Witness for C10: an off-topic question against a store that holds no
collection at all still succeeds with the off-topic answer. -/
theorem C10_gate_no_store_access_witness :
    query_rag_pipeline demoOracles "q" "missing" "Product Lead" [] []
      = .ok ⟨offTopicAnswer "Product Lead", []⟩ :=
  C10_gate_no_store_access demoOracles "q" "Product Lead"
    ["business metrics", "user behavior", "product performance"] (mkRat 1 10)
    (by decide) (by decide) (by decide) [] "missing" [] demoOracles rfl

end RagHandler
